import Mathlib

/-!
Verification of the core of the ukis-h3cellstore query-engine bridge.

The development is a shallow embedding of the Rust sources:
  * `src/h3cpy_int/src/compacted_tables.rs` (table-name codec, tableset
    discovery, query validation, the query planner `build_select_query`),
  * `src/h3cpy/src/clickhouse.rs` (`has_data`, `fetch_next_window`,
    the h3cpy `ResultSet`),
  * `src/bamboo_h3/src/clickhouse.rs` (`AwaitableResultSet`,
    `wait_until_finished`, the bamboo `ResultSet` payload lifecycle).

External collaborators (the H3 cell arithmetic library, the database wire
protocol, the tokio runtime) are abstracted: H3 primitives become an
`H3Model` parameter, database calls become environment functions, time
becomes an abstract counter. Machine integers (`u8` resolutions, `u64`
cell ids) are modelled as `Nat`; none of the embedded code performs
arithmetic that could overflow them.
-/

/-! ## Character classes of the table-name regex

The regex used by `Table::parse` is
`^([a-zA-Z].[a-zA-Z_0-9]+)_([0-9]{2})_(base|compacted)$`.
The classes below are its building blocks, phrased over `Char.toNat` so
the ASCII ranges are explicit.
-/

/-- ASCII `[0-9]`. -/
def isDigitChar (c : Char) : Bool := 48 ≤ c.toNat && c.toNat ≤ 57

/-- ASCII `[a-zA-Z]`. -/
def isAsciiLetter (c : Char) : Bool :=
  (65 ≤ c.toNat && c.toNat ≤ 90) || (97 ≤ c.toNat && c.toNat ≤ 122)

/-- ASCII `[a-zA-Z_0-9]`. -/
def isWordChar (c : Char) : Bool := isAsciiLetter c || isDigitChar c || c == '_'

/-- The character for a decimal digit value. -/
def digitChar (n : Nat) : Char := Char.ofNat (48 + n)

/-- Rust's `format!("{:02}", r)`: zero-padded to two digits; numbers of
three or more digits are printed in full. -/
def formatRes02 (r : Nat) : String :=
  if r < 100 then ⟨[digitChar (r / 10), digitChar (r % 10)]⟩ else toString r

/-- Substring containment, `haystack.contains(needle)` in Rust:
some drop of the haystack starts with the needle. -/
def strContains (hay needle : String) : Bool :=
  (List.range (hay.data.length + 1)).any (fun i => needle.data.isPrefixOf (hay.data.drop i))

/-- Rust's `str::starts_with`: prefix test on the character lists
(kept off `String.startsWith`, whose well-founded recursion does not
reduce inside the kernel). -/
def strStartsWith (s pre : String) : Bool := pre.data.isPrefixOf s.data

/-- `str::replace` on character lists: replace the non-overlapping
occurrences of `pat`, scanning left to right. The fuel argument is the
length of the scanned list, which bounds the number of steps. -/
def replaceAllAux (pat repl : List Char) : Nat → List Char → List Char
  | 0, l => l
  | _, [] => []
  | fuel+1, c :: rest =>
    if pat.isPrefixOf (c :: rest) then
      repl ++ replaceAllAux pat repl fuel ((c :: rest).drop pat.length)
    else c :: replaceAllAux pat repl fuel rest

/-- Rust's `str::replace(pat, repl)` (replaces every occurrence). -/
def strReplace (s pat repl : String) : String :=
  ⟨replaceAllAux pat.data repl.data s.data.length s.data⟩

/-! ## The H3 collaborator

The spec places the H3 cell arithmetic library out of scope; its
primitives are assumed. The embedding is parametric in them. -/

/-- The H3 primitives the embedded code calls (`h3ron`): cell resolution,
parent at a coarser resolution, children at a finer resolution, and the
validity check. -/
structure H3Model where
  resolution : Nat → Nat
  getParent : Nat → Nat → Nat
  getChildren : Nat → Nat → List Nat
  isValid : Nat → Bool

/-- `h3ron::H3_MIN_RESOLUTION`. -/
def H3_MIN_RESOLUTION : Nat := 0

/-! ## Errors (`h3cpy_int/src/error.rs` is not under src/; the
constructors are the kinds the planner raises, named as the spec's error
taxonomy and the `compacted_tables.rs` call sites name them). -/

/-- The error kinds raised by the planner and validator. -/
inductive Error where
  | EmptyIndexes : Error
  | MixedResolutions : Error
  | InvalidIndex (index : Nat) : Error
  | NoQueryableTables : Error
  | MissingQueryPlaceholder (placeholder : String) : Error
deriving DecidableEq, Repr

/-- Modelled from the spec: `check_index_valid` lives in
`h3cpy_int/src/error.rs`, which is not under src/. The spec says the
`InvalidCell` kind is raised when a cell fails the H3 validity check. -/
def checkIndexValidInt (m : H3Model) (i : Nat) : Except Error Unit :=
  if m.isValid i then .ok () else .error (.InvalidIndex i)

/-! ## Table and TableSpec (`compacted_tables.rs`) -/

/-- `TableSpec`. -/
structure TableSpec where
  h3_resolution : Nat
  is_compacted : Bool
  is_intermediate : Bool
deriving DecidableEq, Repr

/-- `Table`. -/
structure Table where
  basename : String
  spec : TableSpec
deriving DecidableEq, Repr

/-- The `_\d\d_` segment of the regex: a match of
`^_[0-9]{2}_` returning the two digit characters and the remainder. -/
def restOk (l : List Char) : Option (Char × Char × List Char) :=
  match l with
  | c0 :: d1 :: d2 :: c3 :: s =>
    if c0 == '_' && isDigitChar d1 && isDigitChar d2 && c3 == '_' then some (d1, d2, s) else none
  | _ => none

/-- The `(base|compacted)$` alternative: `some false` for `base`,
`some true` for `compacted`. -/
def suffixKind (s : List Char) : Option Bool :=
  if s = "base".data then some false
  else if s = "compacted".data then some true
  else none

/-- The basename group `[a-zA-Z].[a-zA-Z_0-9]+`: an ASCII letter, any
character except a newline, then one or more word characters. -/
def basenameOk : List Char → Bool
  | a :: b :: rest => isAsciiLetter a && !(b == '\n') && !rest.isEmpty && rest.all isWordChar
  | _ => false

/-- One candidate split of the name at basename length `k`: the whole
regex matches with group 1 of length `k` iff this returns `some`. The
resolution is `captures[2].parse::<u8>()`, the numeric value of the two
digits. -/
def matchSplit (cs : List Char) (k : Nat) : Option Table :=
  match restOk (cs.drop k) with
  | none => none
  | some (d1, d2, s) =>
    match suffixKind s with
    | none => none
    | some comp =>
      if basenameOk (cs.take k) then
        some ⟨(cs.take k).asString,
              ⟨10 * (d1.toNat - 48) + (d2.toNat - 48), comp, false⟩⟩
      else none

/-- `Table::parse`: match the anchored regex
`^([a-zA-Z].[a-zA-Z_0-9]+)_([0-9]{2})_(base|compacted)$`, the greedy `+`
taking the longest basename. `is_intermediate` is always `false`. -/
def Table.parse (full_table_name : String) : Option Table :=
  (List.range (full_table_name.data.length + 1)).reverse.findSome?
    (fun k => matchSplit full_table_name.data k)

/-- `Table::to_table_name`: `format!("{}_{:02}_{}", basename, res, suffix)`. -/
def Table.to_table_name (t : Table) : String :=
  t.basename ++ "_" ++ formatRes02 t.spec.h3_resolution ++ "_" ++
    (if t.spec.is_compacted then "compacted" else "base")

example : Table.parse "water_05_base" = some ⟨"water", ⟨5, false, false⟩⟩ := by decide
example : Table.parse "x_16_base" = none := by decide
example : Table.parse "x_05_other" = none := by decide
example : Table.parse "some_ta78ble_05_base" = some ⟨"some_ta78ble", ⟨5, false, false⟩⟩ := by
  decide
example : Table.to_table_name ⟨"some_table", ⟨5, false, false⟩⟩ = "some_table_05_base" := by
  decide

/-- Modelled from the spec: the resolution alternative `(0\d|1[0-5])` of
the table-name grammar the spec states. -/
def specResOk (d1 d2 : Char) : Bool :=
  (d1 == '0' && isDigitChar d2) || (d1 == '1' && (48 ≤ d2.toNat && d2.toNat ≤ 53))

/-- Modelled from the spec: the basename group `[a-zA-Z][a-zA-Z_0-9]+`
of the grammar the spec states (a letter followed by one or more
letters, digits or underscores). -/
def specBasenameOk : List Char → Bool
  | a :: rest => isAsciiLetter a && !rest.isEmpty && rest.all isWordChar
  | _ => false

/-- Modelled from the spec: the full table-name grammar the spec claims,
`^[a-zA-Z][a-zA-Z_0-9]+_(0\d|1[0-5])_(base|compacted)$`, as a matcher
(some split of the name fits basename, `_`, restricted resolution, `_`,
suffix). Stated for comparison with `Table.parse`. -/
def specTableGrammar (name : String) : Bool :=
  (List.range (name.data.length + 1)).any (fun k =>
    specBasenameOk (name.data.take k) &&
      (match restOk (name.data.drop k) with
       | some (d1, d2, s) => specResOk d1 d2 && (suffixKind s).isSome
       | none => false))

/-! ## TableSetQuery (`compacted_tables.rs`) -/

/-- `TableSetQuery`: an autogenerated query or a templated select. -/
inductive TableSetQuery where
  | AutoGenerated : TableSetQuery
  | TemplatedSelect (querystring : String) : TableSetQuery

/-- `TableSetQuery::validate`: a template must contain the placeholders
`<[table]>` and `<[h3indexes]>`, checked in that order. -/
def TableSetQuery.validate : TableSetQuery → Except Error Unit
  | .AutoGenerated => .ok ()
  | .TemplatedSelect querystring =>
    if !(strContains querystring "<[table]>") then
      .error (.MissingQueryPlaceholder "<[table]>")
    else if !(strContains querystring "<[h3indexes]>") then
      .error (.MissingQueryPlaceholder "<[h3indexes]>")
    else .ok ()

/-- The `Into<Option<String>>` impl for `TableSetQuery`. -/
def TableSetQuery.intoOptionString : TableSetQuery → Option String
  | .AutoGenerated => none
  | .TemplatedSelect qs => some qs

/-- The `From<Option<String>>` impl for `TableSetQuery`. -/
def TableSetQuery.fromOptionString : Option String → TableSetQuery
  | some s => .TemplatedSelect s
  | none => .AutoGenerated

/-! ## TableSet (`compacted_tables.rs`)

`HashSet<u8>` resolution sets and the `HashMap<String, String>` column
map are modelled as lists in their (arbitrary but fixed) iteration
order; `find_tablesets` below inserts without duplicating, as the hash
containers do. -/

/-- `TableSet`. -/
structure TableSet where
  basename : String
  compacted_h3_resolutions : List Nat
  base_h3_resolutions : List Nat
  columns : List (String × String)
deriving DecidableEq, Repr

/-- `TableSet::new`. -/
def TableSet.new (basename : String) : TableSet := ⟨basename, [], [], []⟩

/-- `TableSet::compacted_tables`. -/
def TableSet.compacted_tables (ts : TableSet) : List Table :=
  ts.compacted_h3_resolutions.map (fun cr => ⟨ts.basename, ⟨cr, true, false⟩⟩)

/-- `TableSet::base_tables`. -/
def TableSet.base_tables (ts : TableSet) : List Table :=
  ts.base_h3_resolutions.map (fun cr => ⟨ts.basename, ⟨cr, false, false⟩⟩)

/-- `TableSet::tables`: the base tables followed by the compacted ones. -/
def TableSet.tables (ts : TableSet) : List Table :=
  ts.base_tables ++ ts.compacted_tables

/-- `TableSet::num_tables`. -/
def TableSet.num_tables (ts : TableSet) : Nat :=
  ts.base_h3_resolutions.length + ts.compacted_h3_resolutions.length

/-! ## The query planner (`TableSet::build_select_query`) -/

/-- The keys of the `queryable_h3indexes` map: the base resolutions
chained with the compacted ones, keeping those `≤` the target
resolution. (Collecting into the `HashMap` drops duplicates, which only
affects key multiplicity, never membership.) -/
def reachableKeys (ts : TableSet) (h3_resolution : Nat) : List Nat :=
  (ts.base_h3_resolutions ++ ts.compacted_h3_resolutions).filter (· ≤ h3_resolution)

/-- `checkCells`: the per-index loop body of `build_select_query` —
validity check, then the resolution comparison against the target. -/
def checkCells (m : H3Model) (h3_resolution : Nat) : List Nat → Except Error Unit
  | [] => .ok ()
  | c :: rest =>
    match checkIndexValidInt m c with
    | .error e => .error e
    | .ok _ =>
      if m.resolution c = h3_resolution then checkCells m h3_resolution rest
      else .error .MixedResolutions

/-- The per-resolution `HashSet` of parents: each cell's parent at `r`
inserted once, in first-insertion order. -/
def parentList (m : H3Model) (h3indexes : List Nat) (r : Nat) : List Nat :=
  h3indexes.foldl
    (fun acc c => if m.getParent c r ∈ acc then acc else acc ++ [m.getParent c r]) []

/-- `selectable_columns`: the keys of the columns map that do not start
with `h3index`, comma-joined. -/
def selectableColumns (ts : TableSet) : String :=
  String.intercalate ", "
    ((ts.columns.filter (fun kv => !(strStartsWith kv.1 "h3index"))).map (fun kv => kv.1))

/-- The table read at resolution `r` for target resolution `R`:
compacted below the target, base at the target. -/
def tableNameFor (ts : TableSet) (r h3_resolution : Nat) : String :=
  Table.to_table_name ⟨ts.basename, ⟨r, r != h3_resolution, false⟩⟩

/-- One member of `query_string_parts`: the SELECT emitted for
resolution `r`. -/
def queryPart (m : H3Model) (ts : TableSet) (h3indexes : List Nat)
    (h3_resolution r : Nat) (query : TableSetQuery) : String :=
  let arr := "[" ++ String.intercalate "," ((parentList m h3indexes r).map toString) ++ "]"
  let tablename := tableNameFor ts r h3_resolution
  match query with
  | .AutoGenerated =>
    "select h3index, " ++ selectableColumns ts ++ " from " ++ tablename ++
      " where h3index in " ++ arr
  | .TemplatedSelect query_string =>
    strReplace (strReplace query_string "<[table]>" tablename) "<[h3indexes]>" arr

/-- `TableSet::build_select_query`: validate the query, take the first
index's resolution as the target, check every index, then emit one
SELECT per reachable resolution in ascending order from
`H3_MIN_RESOLUTION`, joined with `" union all "`. -/
def TableSet.build_select_query (ts : TableSet) (m : H3Model) (h3indexes : List Nat)
    (query : TableSetQuery) : Except Error String :=
  match query.validate with
  | .error e => .error e
  | .ok _ =>
    match h3indexes with
    | [] => .error .EmptyIndexes
    | c0 :: _ =>
      match checkIndexValidInt m c0 with
      | .error e => .error e
      | .ok _ =>
        let h3_resolution := m.resolution c0
        match checkCells m h3_resolution h3indexes with
        | .error e => .error e
        | .ok _ =>
          if reachableKeys ts h3_resolution = [] then .error .NoQueryableTables
          else
            .ok (String.intercalate " union all "
              (((List.range (h3_resolution + 1)).filter
                  (fun r => (reachableKeys ts h3_resolution).contains r)).map
                (fun r => queryPart m ts h3indexes h3_resolution r query)))

/-! ## Tableset discovery (`find_tablesets`) -/

/-- `HashSet::insert`: append the value unless present. -/
def insertSet (l : List Nat) (x : Nat) : List Nat := if x ∈ l then l else l ++ [x]

/-- The body of the discovery loop: insert the parsed table's resolution
into the matching resolution set of its tableset. -/
def insertTableRes (ts : TableSet) (t : Table) : TableSet :=
  if t.spec.is_compacted then
    { ts with compacted_h3_resolutions := insertSet ts.compacted_h3_resolutions t.spec.h3_resolution }
  else
    { ts with base_h3_resolutions := insertSet ts.base_h3_resolutions t.spec.h3_resolution }

/-- `tablesets.entry(basename).or_insert_with(TableSet::new)` followed by
the resolution insert, on an association list keyed by basename. -/
def updateEntry : List (String × TableSet) → Table → List (String × TableSet)
  | [], table => [(table.basename, insertTableRes (TableSet.new table.basename) table)]
  | (k, ts) :: rest, table =>
    if k = table.basename then (k, insertTableRes ts table) :: rest
    else (k, ts) :: updateEntry rest table

/-- One iteration of the discovery loop: parse the name, skipping it
when unparseable. -/
def findStep (acc : List (String × TableSet)) (tablename : String) :
    List (String × TableSet) :=
  match Table.parse tablename with
  | none => acc
  | some table => updateEntry acc table

/-- `find_tablesets`: parse each name, skipping unparseable ones, and
collect resolutions per basename. -/
def find_tablesets (tablenames : List String) : List (String × TableSet) :=
  tablenames.foldl findStep []

/-- Lookup in the association-list model of the `HashMap`. -/
def tsLookup (l : List (String × TableSet)) (b : String) : Option TableSet :=
  (l.find? (fun kv => kv.1 == b)).map (fun kv => kv.2)

example :
    tsLookup (find_tablesets ["water_00_base", "water_00_compacted", "water_01_base",
      "something_else_06_base", "something_else_07_base", "one"]) "water" =
      some ⟨"water", [0], [0, 1], []⟩ := by decide

example :
    tsLookup (find_tablesets ["water_00_base", "something_else_06_base",
      "something_else_07_base"]) "something_else" =
      some ⟨"something_else", [], [6, 7], []⟩ := by decide

/-! ## Columnar batches

Modelled from the spec: the `ColumnSet` / `ColVec` containers live in
`columnset.rs` and `h3cpy_int`, which are not under src/. The spec's
`ColumnBatch` is a mapping from column name to a typed vector; only the
names and the vector lengths matter to the claims, so a vector is
modelled as a list of `Nat` entries. -/

/-- A columnar batch: named columns of vectors. -/
structure ColumnSetM where
  columns : List (String × List Nat)
deriving DecidableEq, Repr

/-- Emptiness of a batch: no columns, or every column empty (the shape
of `ResultSet::is_empty` in `h3cpy/src/clickhouse.rs` and of the spec's
empty-batch definition). -/
def ColumnSetM.is_empty (cs : ColumnSetM) : Bool :=
  cs.columns.isEmpty || cs.columns.all (fun kv => kv.2.isEmpty)

/-! ## Python-level errors -/

/-- The `PyErr` values the embedded methods produce: a failed cell
validity check, a propagated planner error, a propagated clickhouse
error, and the `PyRuntimeError` messages raised directly. -/
inductive PyErr where
  | invalidIndex (index : Nat) : PyErr
  | intErr (e : Error) : PyErr
  | chErr (e : String) : PyErr
  | runtimeError (msg : String) : PyErr
deriving DecidableEq, Repr

/-! ## The h3cpy connection (`h3cpy/src/clickhouse.rs`)

The database behind the pooled connection is abstracted into an
environment: `query_returns_rows` and `query_all_with_uncompacting`
live in `h3cpy_int/src/clickhouse/query.rs`, which is not under src/,
so their results are environment functions. -/

/-- The database environment: what each query returns. -/
structure ChEnv where
  queryReturnsRows : String → Except String Bool
  queryAllUncompact : String → List Nat → Except String ColumnSetM

/-- The h3cpy `ResultSet`. -/
structure H3cpyResultSet where
  h3indexes_queried : Option (List Nat)
  window_h3index : Option Nat
  column_data : ColumnSetM
deriving DecidableEq, Repr

/-- The default existence-check template used by `has_data` when no
template is supplied. -/
def defaultExistenceTemplate : String :=
  "select h3index from <[table]> where h3index in <[h3indexes]> limit 1"

/-- `ClickhouseConnection::has_data`: validate the cell, build the
existence query from the (defaulted) template with `" limit 1"`
appended to a user template, plan it over the tableset with the single
cell, and ask the database whether it returns rows. -/
def has_data (env : ChEnv) (m : H3Model) (ts : TableSet) (h3index : Nat)
    (querystring_template : Option String) : Except PyErr Bool :=
  if m.isValid h3index = false then .error (.invalidIndex h3index)
  else
    let tablesetquery : TableSetQuery :=
      match querystring_template with
      | some qs => .TemplatedSelect (qs ++ " limit 1")
      | none => .TemplatedSelect defaultExistenceTemplate
    match ts.build_select_query m [h3index] tablesetquery with
    | .error e => .error (.intErr e)
    | .ok query_string =>
      match env.queryReturnsRows query_string with
      | .error e => .error (.chErr e)
      | .ok b => .ok b

/-- Modelled from the spec: `SlidingH3Window` lives in `window.rs`,
which is not under src/. Per the spec, the window holds the ordered
queue of coarse cells which `next_window` pops in insertion order, the
target resolution, the query, and the polygon; the polygon enters
`fetch_next_window` only through the child-cell intersection test
`window_polygon.intersects(child.to_polygon())`, so it is carried as
that test. -/
structure SlidingH3Window where
  window_queue : List Nat
  target_h3_resolution : Nat
  query : TableSetQuery
  intersectsWindowPolygon : Nat → Bool

/-- The intersecting children of a coarse window cell:
`get_children(target)` filtered by the polygon test. -/
def windowChildren (m : H3Model) (w : SlidingH3Window) (window_h3index : Nat) : List Nat :=
  (m.getChildren window_h3index w.target_h3_resolution).filter w.intersectsWindowPolygon

/-- The `while let` loop of `ClickhouseConnection::fetch_next_window`,
recursing over the remaining coarse queue. Returns the result together
with the queue left in the window. -/
def fetchLoop (env : ChEnv) (m : H3Model) (ts : TableSet) (w : SlidingH3Window) :
    List Nat → Except PyErr (Option H3cpyResultSet) × List Nat
  | [] => (.ok none, [])
  | window_h3index :: rest =>
    match has_data env m ts window_h3index w.query.intoOptionString with
    | .error e => (.error e, rest)
    | .ok false => fetchLoop env m ts w rest
    | .ok true =>
      if windowChildren m w window_h3index = [] then fetchLoop env m ts w rest
      else
        match ts.build_select_query m (windowChildren m w window_h3index) w.query with
        | .error e => (.error (.intErr e), rest)
        | .ok query_string =>
          match env.queryAllUncompact query_string (windowChildren m w window_h3index) with
          | .error e => (.error (.chErr e), rest)
          | .ok column_data =>
            (.ok (some ⟨some (windowChildren m w window_h3index), some window_h3index,
              column_data⟩), rest)

/-- `ClickhouseConnection::fetch_next_window`: drain the coarse queue,
skipping cells without database contents and cells without intersecting
children, and emit the first surviving window's `ResultSet`. -/
def fetch_next_window (env : ChEnv) (m : H3Model) (w : SlidingH3Window) (ts : TableSet) :
    Except PyErr (Option H3cpyResultSet) × SlidingH3Window :=
  match fetchLoop env m ts w w.window_queue with
  | (res, queue) => (res, { w with window_queue := queue })

/-! ## The bamboo_h3 result lifecycle (`bamboo_h3/src/clickhouse.rs`)

`ClickhousePool::spawn_query` / `await_query` (in `syncapi.rs`, not
under src/) are abstracted: a spawned query is a handle number and the
environment says what awaiting each handle returns. `Instant::elapsed`
becomes the environment's clock reading. -/

/-- The pool environment for awaited queries. -/
structure PoolEnv where
  awaitQuery : Nat → Except PyErr ColumnSetM
  elapsedMillis : Nat

/-- `AwaitableResultSet`: the optional join handle and the query start
time. -/
structure AwaitableResultSet where
  handle : Option Nat
  t_query_start : Nat
deriving DecidableEq, Repr

/-- The `PyRuntimeError` raised on a second await. -/
def handleConsumedErr : PyErr := .runtimeError "resultset can only be awaited once"

/-- `AwaitableResultSet::wait_until_finished`: take the handle (leaving
`None` behind) and await it; with no handle left, fail. -/
def AwaitableResultSet.wait_until_finished (a : AwaitableResultSet) (env : PoolEnv) :
    Except PyErr (ColumnSetM × Nat) × AwaitableResultSet :=
  match a.handle with
  | some h =>
    (match env.awaitQuery h with
     | .ok resultmap => .ok (resultmap, env.elapsedMillis)
     | .error e => .error e,
     { a with handle := none })
  | none => (.error handleConsumedErr, a)

/-- The bamboo_h3 `ResultSet`: the payload is either an (optional)
materialized batch or an (optional) in-flight awaitable. -/
structure BResultSet where
  h3indexes_queried : Option (List Nat)
  window_h3index : Option Nat
  column_data : Sum (Option ColumnSetM) (Option AwaitableResultSet)
  query_duration : Option Nat
deriving DecidableEq, Repr

/-- `ResultSet::await_column_data`: on the awaitable side, take the
awaitable and block on it, storing the batch and the duration on
success; the taken slot stays empty on failure. -/
def BResultSet.await_column_data (rs : BResultSet) (env : PoolEnv) :
    Except PyErr Unit × BResultSet :=
  match rs.column_data with
  | .inr (some awaitable) =>
    (match awaitable.wait_until_finished env with
     | (.ok (columnset, query_duration), _) =>
       (.ok (), { rs with column_data := .inl (some columnset),
                          query_duration := some query_duration })
     | (.error e, _) => (.error e, { rs with column_data := .inr none }))
  | .inr none => (.error (.runtimeError "Got None for AwaitableResultSet"), rs)
  | .inl _ => (.ok (), rs)

/-- `ResultSet::to_columnset`: await, then move the batch out of the
left slot (`cd.take()`). -/
def BResultSet.to_columnset (rs : BResultSet) (env : PoolEnv) :
    Except PyErr (Option ColumnSetM) × BResultSet :=
  match rs.await_column_data env with
  | (.error e, rs1) => (.error e, rs1)
  | (.ok _, rs1) =>
    match rs1.column_data with
    | .inl cd => (.ok cd, { rs1 with column_data := .inl none })
    | .inr _ => (.ok none, rs1)

/-- `ResultSet::get_empty`: await, then report emptiness of the left
slot, an empty slot counting as empty. -/
def BResultSet.get_empty (rs : BResultSet) (env : PoolEnv) :
    Except PyErr Bool × BResultSet :=
  match rs.await_column_data env with
  | (.error e, rs1) => (.error e, rs1)
  | (.ok _, rs1) =>
    match rs1.column_data with
    | .inl cd => (.ok (match cd with | none => true | some cs => cs.is_empty), rs1)
    | .inr _ => (.error (.runtimeError "awaiting failed"), rs1)

/-! ## A concrete H3 model for witnesses

A toy geometry: a cell is `resolution * 1000 + id`; the parent and the
single child at resolution `r` keep the id. It satisfies the interface
shape the embedded code relies on and lets the theorems be exercised on
closed inputs. -/

/-- The toy H3 model used by the witnesses. -/
def mToy : H3Model where
  resolution c := c / 1000
  getParent c r := r * 1000 + c % 1000
  getChildren c r := [r * 1000 + c % 1000, r * 1000 + 500 + c % 500]
  isValid _ := true

/-- A pool environment for witnesses: every handle resolves to an empty
batch. -/
def envPool0 : PoolEnv := ⟨fun _ => .ok ⟨[]⟩, 7⟩

/-- A database environment for witnesses: every query reports rows and
returns an empty batch. -/
def envCh0 : ChEnv := ⟨fun _ => .ok true, fun _ _ => .ok ⟨[]⟩⟩

/-- A database environment embodying the claim that the existence check
is the single query against the coarse-resolution table: it reports a
row exactly for that one query string. -/
def envC4 : ChEnv :=
  ⟨fun s => .ok (s == "select h3index from water_05_base where h3index in [5007] limit 1"),
   fun _ _ => .ok ⟨[]⟩⟩

/-- The tableset of the sliding-window witness: base tables at
resolution 5 only. -/
def tsC5 : TableSet := ⟨"water", [], [5], []⟩

/-- The sliding window of the witness: two coarse cells queued, target
resolution 5, autogenerated query, and a polygon test keeping
even-numbered cells. -/
def wC5 : SlidingH3Window := ⟨[9001, 9002], 5, .AutoGenerated, fun child => child % 2 == 0⟩

/-! ## Theorems -/

/-- `strContains` agrees with list-infix containment: the haystack
contains the needle as a literal substring. -/
theorem strContains_iff_isInfix (hay needle : String) :
    strContains hay needle = true ↔ needle.data <:+: hay.data := by
  unfold strContains
  rw [List.any_eq_true]
  constructor
  · rintro ⟨i, _, hpre⟩
    obtain ⟨t, ht⟩ := List.isPrefixOf_iff_prefix.mp hpre
    exact ⟨hay.data.take i, t, by
      rw [List.append_assoc, ht, List.take_append_drop]⟩
  · rintro ⟨s, t, h⟩
    refine ⟨s.length, ?_, ?_⟩
    · rw [List.mem_range]
      have hlen := congrArg List.length h
      simp only [List.length_append] at hlen
      omega
    · apply List.isPrefixOf_iff_prefix.mpr
      refine ⟨t, ?_⟩
      have hdrop : hay.data.drop s.length = needle.data ++ t := by
        rw [← h, List.append_assoc, List.drop_left]
      rw [hdrop]

/-- C6: `AutoGenerated` always validates; `TemplatedSelect s` validates
iff `s` contains both the literal substring `<[table]>` and the literal
substring `<[h3indexes]>`; a missing placeholder fails validation with
`MissingQueryPlaceholder` naming it, and `build_select_query` then fails
with that same error. -/
theorem c6_validate_placeholders (s : String) :
    TableSetQuery.validate .AutoGenerated = .ok () ∧
    (TableSetQuery.validate (.TemplatedSelect s) = .ok () ↔
      strContains s "<[table]>" = true ∧ strContains s "<[h3indexes]>" = true) ∧
    (strContains s "<[table]>" = false →
      TableSetQuery.validate (.TemplatedSelect s) =
        .error (.MissingQueryPlaceholder "<[table]>")) ∧
    (strContains s "<[table]>" = true → strContains s "<[h3indexes]>" = false →
      TableSetQuery.validate (.TemplatedSelect s) =
        .error (.MissingQueryPlaceholder "<[h3indexes]>")) ∧
    (∀ (m : H3Model) (ts : TableSet) (h3indexes : List Nat) (e : Error),
      TableSetQuery.validate (.TemplatedSelect s) = .error e →
      ts.build_select_query m h3indexes (.TemplatedSelect s) = .error e) ∧
    (∀ needle : String, strContains s needle = true ↔ needle.data <:+: s.data) := by
  refine ⟨rfl, ?_, ?_, ?_, ?_, fun needle => strContains_iff_isInfix s needle⟩
  · unfold TableSetQuery.validate
    cases h1 : strContains s "<[table]>" <;> cases h2 : strContains s "<[h3indexes]>" <;>
      simp [h1, h2]
  · intro h1
    unfold TableSetQuery.validate
    simp [h1]
  · intro h1 h2
    unfold TableSetQuery.validate
    simp [h1, h2]
  · intro m ts h3indexes e he
    unfold TableSet.build_select_query
    rw [he]

/-- Witness for C6 at the spec's own example: a template missing
`<[h3indexes]>` fails with `MissingQueryPlaceholder` naming it. -/
theorem c6_witness :
    TableSetQuery.validate (.TemplatedSelect "select h3index from <[table]>") =
      .error (.MissingQueryPlaceholder "<[h3indexes]>") :=
  (c6_validate_placeholders "select h3index from <[table]>").2.2.2.1
    (by decide) (by decide)

/-- C8: the first call to `wait_until_finished` consumes the handle
(leaving `None`), and every subsequent call on the consumed handle
fails with the `resultset can only be awaited once` programming error,
leaving the state unchanged. -/
theorem c8_await_single_consumption (env : PoolEnv) (a : AwaitableResultSet) (h : Nat)
    (hh : a.handle = some h) :
    (a.wait_until_finished env).2.handle = none ∧
    (∀ env2 : PoolEnv,
      ((a.wait_until_finished env).2.wait_until_finished env2).1 = .error handleConsumedErr ∧
      ((a.wait_until_finished env).2.wait_until_finished env2).2 =
        (a.wait_until_finished env).2) := by
  have h2 : (a.wait_until_finished env).2 = { a with handle := none } := by
    unfold AwaitableResultSet.wait_until_finished
    rw [hh]
  refine ⟨by rw [h2], fun env2 => ?_⟩
  rw [h2]
  unfold AwaitableResultSet.wait_until_finished
  exact ⟨rfl, rfl⟩

/-- Witness for C8: a concrete handle, awaited, is consumed; a second
await fails with the consumed-handle error. -/
theorem c8_witness :
    ((AwaitableResultSet.wait_until_finished ⟨some 3, 0⟩ envPool0).2.handle = none) ∧
    (∀ env2 : PoolEnv,
      (((AwaitableResultSet.wait_until_finished ⟨some 3, 0⟩ envPool0).2).wait_until_finished
          env2).1 = .error handleConsumedErr ∧
      (((AwaitableResultSet.wait_until_finished ⟨some 3, 0⟩ envPool0).2).wait_until_finished
          env2).2 = (AwaitableResultSet.wait_until_finished ⟨some 3, 0⟩ envPool0).2) :=
  c8_await_single_consumption envPool0 ⟨some 3, 0⟩ 3 rfl

/-- C9: once `to_columnset` has returned the materialized batch, the
payload has been moved out: a second `to_columnset` returns `Ok(None)`
(not an error), and a subsequent `get_empty` returns `true` no matter
what the transferred batch contained. -/
theorem c9_to_columnset_transfer (env env2 env3 : PoolEnv) (rs : BResultSet)
    (cs : ColumnSetM) (rs1 : BResultSet)
    (h : rs.to_columnset env = (.ok (some cs), rs1)) :
    rs1.to_columnset env2 = (.ok none, rs1) ∧ rs1.get_empty env3 = (.ok true, rs1) := by
  have hleft : rs1.column_data = .inl none := by
    unfold BResultSet.to_columnset at h
    split at h
    · injection h with h1 h2
      simp at h1
    · split at h
      · injection h with h1 h2
        rw [← h2]
      · injection h with h1 h2
        simp at h1
  obtain ⟨hq1, wh1, cd1, qd1⟩ := rs1
  simp only at hleft
  subst hleft
  exact ⟨rfl, rfl⟩

/-- Witness for C9: a result set holding the non-empty batch
`[("v", [1, 2])]` hands it out once; afterwards `to_columnset` yields
`None` and `get_empty` reports `true`. -/
theorem c9_witness :
    BResultSet.to_columnset ⟨none, none, .inl none, none⟩ envPool0 =
      (.ok none, ⟨none, none, .inl none, none⟩) ∧
    BResultSet.get_empty ⟨none, none, .inl none, none⟩ envPool0 =
      (.ok true, ⟨none, none, .inl none, none⟩) :=
  c9_to_columnset_transfer envPool0 envPool0 envPool0
    ⟨none, none, .inl (some ⟨[("v", [1, 2])]⟩), none⟩ ⟨[("v", [1, 2])]⟩
    ⟨none, none, .inl none, none⟩ rfl

/-- Counting tables of one resolution in a mapped table list. -/
theorem length_filter_map_tables (basename : String) (comp : Bool) (l : List Nat) (r : Nat) :
    ((l.map (fun cr => (⟨basename, ⟨cr, comp, false⟩⟩ : Table))).filter
      (fun t => t.spec.h3_resolution == r)).length = l.count r := by
  induction l with
  | nil => rfl
  | cons x xs ih =>
    simp only [List.map_cons, List.filter_cons]
    by_cases hx : x = r
    · subst hx
      simp [ih, List.count_cons]
    · simp [hx, ih, List.count_cons]

/-- C10: every table produced by `tables`, `base_tables` and
`compacted_tables` carries the tableset's basename and is not
intermediate; `base_tables` yields one non-compacted table per element
of `base_h3_resolutions`, `compacted_tables` one compacted table per
element of `compacted_h3_resolutions`; and `tables` has length
`num_tables`, the sum of the two set sizes. -/
theorem c10_tables_invariants (ts : TableSet) :
    (∀ t ∈ ts.tables, t.basename = ts.basename ∧ t.spec.is_intermediate = false) ∧
    (∀ t ∈ ts.base_tables, t.spec.is_compacted = false) ∧
    (∀ t ∈ ts.compacted_tables, t.spec.is_compacted = true) ∧
    (∀ r : Nat, ((ts.base_tables.filter (fun t => t.spec.h3_resolution == r)).length =
      ts.base_h3_resolutions.count r) ∧
      ((ts.compacted_tables.filter (fun t => t.spec.h3_resolution == r)).length =
      ts.compacted_h3_resolutions.count r)) ∧
    ts.tables.length = ts.num_tables := by
  refine ⟨?_, ?_, ?_, ?_, ?_⟩
  · intro t ht
    rcases List.mem_append.mp ht with hb | hc
    · obtain ⟨r, _, rfl⟩ := List.mem_map.mp hb
      exact ⟨rfl, rfl⟩
    · obtain ⟨r, _, rfl⟩ := List.mem_map.mp hc
      exact ⟨rfl, rfl⟩
  · intro t ht
    obtain ⟨r, _, rfl⟩ := List.mem_map.mp ht
    rfl
  · intro t ht
    obtain ⟨r, _, rfl⟩ := List.mem_map.mp ht
    rfl
  · intro r
    exact ⟨length_filter_map_tables ts.basename false ts.base_h3_resolutions r,
      length_filter_map_tables ts.basename true ts.compacted_h3_resolutions r⟩
  · simp [TableSet.tables, TableSet.base_tables, TableSet.compacted_tables,
      TableSet.num_tables]

/-- Witness for C10 on a concrete tableset with base resolutions 0 and 1
and compacted resolution 0. -/
theorem c10_witness :
    ((⟨"water", ⟨1, false, false⟩⟩ : Table).basename =
        (⟨"water", [0], [0, 1], []⟩ : TableSet).basename ∧
      (⟨"water", ⟨1, false, false⟩⟩ : Table).spec.is_intermediate = false) ∧
    (⟨"water", ⟨1, false, false⟩⟩ : Table).spec.is_compacted = false ∧
    (⟨"water", ⟨0, true, false⟩⟩ : Table).spec.is_compacted = true ∧
    ((TableSet.base_tables ⟨"water", [0], [0, 1], []⟩).filter
        (fun t => t.spec.h3_resolution == 0)).length = 1 ∧
    (TableSet.tables ⟨"water", [0], [0, 1], []⟩).length =
      TableSet.num_tables ⟨"water", [0], [0, 1], []⟩ := by
  have h := c10_tables_invariants ⟨"water", [0], [0, 1], []⟩
  exact ⟨h.1 _ (by decide), h.2.1 _ (by decide), h.2.2.1 _ (by decide),
    (h.2.2.2.1 0).1.trans (by decide), h.2.2.2.2⟩

/-! ### The table-name codec, characterized -/

/-- The character for a digit value is a digit character. -/
theorem digitChar_isDigit (n : Nat) (h : n ≤ 9) : isDigitChar (digitChar n) = true := by
  interval_cases n <;> decide

/-- Numeric value of the character for a digit value. -/
theorem toNat_digitChar (n : Nat) (h : n ≤ 9) : (digitChar n).toNat = 48 + n := by
  interval_cases n <;> decide

/-- A digit character is the character of its digit value. -/
theorem digitChar_of_isDigit (c : Char) (h : isDigitChar c = true) :
    digitChar (c.toNat - 48) = c ∧ c.toNat - 48 ≤ 9 := by
  have hb : 48 ≤ c.toNat ∧ c.toNat ≤ 57 := by
    simpa [isDigitChar] using h
  constructor
  · have : 48 + (c.toNat - 48) = c.toNat := by omega
    rw [digitChar, this, Char.ofNat_toNat]
  · omega

/-- `findSome?` over the reversed range finds the value at `k` when
everything above `k` yields `none`. -/
theorem findSome?_reverse_range {α : Type} (f : Nat → Option α) (a : α) :
    ∀ (n k : Nat), k ≤ n → (∀ j, k < j → f j = none) → f k = some a →
      ((List.range (n + 1)).reverse).findSome? f = some a := by
  intro n
  induction n with
  | zero =>
    intro k hk hnone hsome
    have hk0 : k = 0 := by omega
    subst hk0
    have h1 : List.range 1 = [0] := rfl
    simp [h1, List.findSome?_cons, hsome]
  | succ n ih =>
    intro k hk hnone hsome
    rw [List.range_succ, List.reverse_append]
    rcases Nat.lt_or_ge k (n + 1) with hlt | hge
    · have hnone1 : f (n + 1) = none := hnone (n + 1) (by omega)
      simpa [List.findSome?_cons, hnone1] using ih k (by omega) hnone hsome
    · have hk1 : k = n + 1 := by omega
      subst hk1
      simp [List.findSome?_cons, hsome]

/-- Past the true basename, the `_dd_` segment never re-matches inside
`_dd_base`. -/
theorem restOk_drop_base (d1 d2 : Char) :
    ∀ j, 1 ≤ j → restOk (List.drop j ('_' :: d1 :: d2 :: '_' :: "base".data)) = none := by
  intro j hj
  match j with
  | 1 => simp [restOk]
  | 2 => simp [restOk]
  | 3 => simp [restOk]
  | 4 => simp [restOk]
  | 5 => rfl
  | 6 => rfl
  | 7 => rfl
  | (n + 8) =>
    rw [List.drop_eq_nil_of_le (by simp)]
    rfl

/-- Past the true basename, the `_dd_` segment never re-matches inside
`_dd_compacted`. -/
theorem restOk_drop_compacted (d1 d2 : Char) :
    ∀ j, 1 ≤ j → restOk (List.drop j ('_' :: d1 :: d2 :: '_' :: "compacted".data)) = none := by
  intro j hj
  match j with
  | 1 => simp [restOk]
  | 2 => simp [restOk]
  | 3 => simp [restOk]
  | 4 => simp [restOk]
  | 5 => simp [restOk]
  | 6 => simp [restOk]
  | 7 => simp [restOk]
  | 8 => simp [restOk]
  | 9 => simp [restOk]
  | 10 => rfl
  | 11 => rfl
  | 12 => rfl
  | (n + 13) =>
    rw [List.drop_eq_nil_of_le (by simp)]
    rfl

/-- `matchSplit` succeeds exactly at the true basename length. -/
theorem matchSplit_at_basename (B : List Char) (d1 d2 : Char) (S : List Char) (comp : Bool)
    (hB : basenameOk B = true) (hd1 : isDigitChar d1 = true) (hd2 : isDigitChar d2 = true)
    (hS : suffixKind S = some comp) :
    matchSplit (B ++ '_' :: d1 :: d2 :: '_' :: S) B.length =
      some ⟨B.asString, ⟨10 * (d1.toNat - 48) + (d2.toNat - 48), comp, false⟩⟩ := by
  unfold matchSplit
  rw [List.drop_left, List.take_left]
  unfold restOk
  simp only [hd1, hd2]
  simp [hS, hB]

/-- Above the true basename length, `matchSplit` fails. -/
theorem matchSplit_gt_basename (B : List Char) (d1 d2 : Char) (S : List Char) (comp : Bool)
    (hS : suffixKind S = some comp) :
    ∀ k, B.length < k → matchSplit (B ++ '_' :: d1 :: d2 :: '_' :: S) k = none := by
  intro k hk
  have hsplit : k = B.length + (k - B.length) := by omega
  have hdropped :
      (B ++ '_' :: d1 :: d2 :: '_' :: S).drop k =
        ('_' :: d1 :: d2 :: '_' :: S).drop (k - B.length) := by
    conv_lhs => rw [hsplit]
    rw [List.drop_append]
  have hrest : restOk (('_' :: d1 :: d2 :: '_' :: S).drop (k - B.length)) = none := by
    unfold suffixKind at hS
    by_cases hb : S = "base".data
    · subst hb
      exact restOk_drop_base d1 d2 _ (by omega)
    · by_cases hc : S = "compacted".data
      · subst hc
        exact restOk_drop_compacted d1 d2 _ (by omega)
      · simp [hb, hc] at hS
  unfold matchSplit
  rw [hdropped, hrest]

/-- The format side of the round trip: a name assembled from a valid
basename, a two-digit resolution and a suffix parses back to exactly
its components. -/
theorem parse_of_format (B : String) (res : Nat) (comp : Bool)
    (hB : basenameOk B.data = true) (hres : res ≤ 99) :
    Table.parse (B ++ "_" ++ formatRes02 res ++ "_" ++
        (if comp then "compacted" else "base")) =
      some ⟨B, ⟨res, comp, false⟩⟩ := by
  have hd1 : isDigitChar (digitChar (res / 10)) = true := digitChar_isDigit _ (by omega)
  have hd2 : isDigitChar (digitChar (res % 10)) = true := digitChar_isDigit _ (by omega)
  have hfmt : formatRes02 res = ⟨[digitChar (res / 10), digitChar (res % 10)]⟩ := by
    unfold formatRes02
    rw [if_pos (by omega)]
  set S : String := if comp then "compacted" else "base" with hSdef
  have hSkind : suffixKind S.data = some comp := by
    rcases comp with _ | _ <;> simp [hSdef, suffixKind]
  have hdata :
      (B ++ "_" ++ formatRes02 res ++ "_" ++ S).data =
        B.data ++ '_' :: digitChar (res / 10) :: digitChar (res % 10) :: '_' :: S.data := by
    rw [hfmt]
    simp [String.data_append]
  unfold Table.parse
  rw [hdata]
  apply findSome?_reverse_range _ _ _ B.data.length
  · simp only [List.length_append, List.length_cons]
    omega
  · intro j hj
    exact matchSplit_gt_basename B.data _ _ S.data comp hSkind j hj
  · rw [matchSplit_at_basename B.data _ _ S.data comp hB hd1 hd2 hSkind]
    have hnum : 10 * ((digitChar (res / 10)).toNat - 48) +
        ((digitChar (res % 10)).toNat - 48) = res := by
      rw [toNat_digitChar _ (by omega), toNat_digitChar _ (by omega)]
      omega
    have hBs : B.data.asString = B := String.asString_toList B
    rw [hnum, hBs]

/-- The parse side of the round trip: whatever `parse` accepts
decomposes into a valid basename, a two-digit resolution and a
suffix, and the name is the formatted image of the parsed table. -/
theorem format_of_parse (name : String) (t : Table) (h : Table.parse name = some t) :
    basenameOk t.basename.data = true ∧ t.spec.h3_resolution ≤ 99 ∧
      t.spec.is_intermediate = false ∧
      name = t.basename ++ "_" ++ formatRes02 t.spec.h3_resolution ++ "_" ++
        (if t.spec.is_compacted then "compacted" else "base") := by
  obtain ⟨k, hkmem, hk⟩ := List.exists_of_findSome?_eq_some h
  unfold matchSplit at hk
  split at hk
  · exact absurd hk (by simp)
  rename_i d1 d2 s hr
  split at hk
  · exact absurd hk (by simp)
  rename_i comp hs
  split at hk
  case isFalse => exact absurd hk (by simp)
  case isTrue hB =>
  -- unpack the `_dd_` segment
  have hshape : name.data.drop k = '_' :: d1 :: d2 :: '_' :: s ∧
      isDigitChar d1 = true ∧ isDigitChar d2 = true := by
    unfold restOk at hr
    split at hr
    case h_2 => exact absurd hr (by simp)
    case h_1 c0 e1 e2 c3 s' hdrop =>
      split at hr
      case isFalse => exact absurd hr (by simp)
      case isTrue hcond =>
        simp only [Option.some.injEq, Prod.mk.injEq] at hr
        obtain ⟨h1, h2, h3⟩ := hr
        simp only [Bool.and_eq_true, beq_iff_eq] at hcond
        obtain ⟨⟨⟨hc0, hd1⟩, hd2⟩, hc3⟩ := hcond
        subst h1
        subst h2
        subst h3
        subst hc0
        subst hc3
        exact ⟨hdrop, hd1, hd2⟩
  obtain ⟨hdrop, hd1, hd2⟩ := hshape
  -- unpack the suffix
  have hsuffix : s = (if comp then "compacted" else "base").data := by
    unfold suffixKind at hs
    by_cases hb : s = "base".data
    · rw [if_pos hb] at hs
      injection hs with hs
      subst hs
      simpa using hb
    · rw [if_neg hb] at hs
      by_cases hc : s = "compacted".data
      · rw [if_pos hc] at hs
        injection hs with hs
        subst hs
        simpa using hc
      · rw [if_neg hc] at hs
        exact absurd hs (by simp)
  -- digit values
  obtain ⟨hdc1, hv1⟩ := digitChar_of_isDigit d1 hd1
  obtain ⟨hdc2, hv2⟩ := digitChar_of_isDigit d2 hd2
  have hres99 : 10 * (d1.toNat - 48) + (d2.toNat - 48) ≤ 99 := by omega
  have hfmt : formatRes02 (10 * (d1.toNat - 48) + (d2.toNat - 48)) = ⟨[d1, d2]⟩ := by
    unfold formatRes02
    rw [if_pos (by omega)]
    have e1 : (10 * (d1.toNat - 48) + (d2.toNat - 48)) / 10 = d1.toNat - 48 := by omega
    have e2 : (10 * (d1.toNat - 48) + (d2.toNat - 48)) % 10 = d2.toNat - 48 := by omega
    rw [e1, e2, hdc1, hdc2]
  injection hk with hk
  subst hk
  refine ⟨?_, hres99, rfl, ?_⟩
  · have hdata : ((name.data.take k).asString).data = name.data.take k :=
      List.toList_asString _
    rw [hdata]
    exact hB
  · -- reassemble the name
    apply String.ext
    simp only [String.data_append]
    rw [hfmt]
    have hdata : ((name.data.take k).asString).data = name.data.take k :=
      List.toList_asString _
    rw [hdata]
    conv_lhs => rw [(List.take_append_drop k name.data).symm]
    rw [hdrop, hsuffix]
    simp

/-- Counterexample to C2: `abc_16_base` is outside the grammar the claim
states (its resolution 16 exceeds 15), yet `Table::parse` accepts it,
returning resolution 16; the code's regex admits any two-digit
resolution `[0-9]{2}` and never checks `r ≤ 15`. -/
theorem c2_counterexample :
    specTableGrammar "abc_16_base" = false ∧
      Table.parse "abc_16_base" = some ⟨"abc", ⟨16, false, false⟩⟩ := by
  constructor
  · decide
  · decide

/-- C2 (amended): `Table::parse(name)` returns `Some` exactly for the
names matching the regex actually used by the code,
`^([a-zA-Z].[a-zA-Z_0-9]+)_([0-9]{2})_(base|compacted)$` — the
returned table carries the matched basename, the numeric value of the
two digits (any value 0–99, no `≤ 15` bound) as resolution, and
`compacted` true iff the suffix is `compacted`; equivalently, `parse`
accepts exactly the formatted images of such tables. -/
theorem c2_amended_parse_characterization (name : String) (t : Table) :
    Table.parse name = some t ↔
      (basenameOk t.basename.data = true ∧ t.spec.h3_resolution ≤ 99 ∧
        t.spec.is_intermediate = false ∧
        name = t.basename ++ "_" ++ formatRes02 t.spec.h3_resolution ++ "_" ++
          (if t.spec.is_compacted then "compacted" else "base")) := by
  constructor
  · exact format_of_parse name t
  · rintro ⟨hB, hres, him, rfl⟩
    obtain ⟨bn, ⟨res, comp, im⟩⟩ := t
    simp only at hB hres him
    subst him
    exact parse_of_format bn res comp hB hres

/-- Counterexample to C3: the table with basename `x` (resolution 5,
not compacted, not intermediate) is producible by `to_table_name`
(giving `x_05_base`), but parsing that name yields `None`, not the
table back: the code's regex requires a basename of at least three
characters. -/
theorem c3_counterexample :
    (⟨"x", ⟨5, false, false⟩⟩ : Table).spec.is_intermediate = false ∧
      Table.to_table_name ⟨"x", ⟨5, false, false⟩⟩ = "x_05_base" ∧
      Table.parse (Table.to_table_name ⟨"x", ⟨5, false, false⟩⟩) = none := by
  refine ⟨rfl, by decide, by decide⟩

/-- C3 (amended): the round trip `parse(to_table_name(t)) = Some(t)`
holds for every non-intermediate table whose basename matches the
regex's basename group (an ASCII letter, any non-newline character,
then one or more word characters — at least three characters) and whose
resolution is at most 99 (so that `{:02}` prints exactly two digits). -/
theorem c3_amended_roundtrip (t : Table) (hB : basenameOk t.basename.data = true)
    (hres : t.spec.h3_resolution ≤ 99) (him : t.spec.is_intermediate = false) :
    Table.parse t.to_table_name = some t := by
  obtain ⟨bn, ⟨res, comp, im⟩⟩ := t
  simp only at hB hres him
  subst him
  exact parse_of_format bn res comp hB hres

/-- Witness for the amended C3 at the table `water`, resolution 5,
base. -/
theorem c3_witness :
    basenameOk "water".data = true ∧ (5 : Nat) ≤ 99 ∧
      Table.parse (Table.to_table_name ⟨"water", ⟨5, false, false⟩⟩) =
        some ⟨"water", ⟨5, false, false⟩⟩ :=
  ⟨by decide, by decide,
    c3_amended_roundtrip ⟨"water", ⟨5, false, false⟩⟩ (by decide) (by decide) rfl⟩

/-! ### Discovery, characterized -/

/-- Every table produced by `parse` is non-intermediate. -/
theorem parse_intermediate_false (n : String) (t : Table) (h : Table.parse n = some t) :
    t.spec.is_intermediate = false :=
  (format_of_parse n t h).2.2.1

/-- Membership in a `HashSet` after an insert. -/
theorem mem_insertSet (l : List Nat) (x r : Nat) : r ∈ insertSet l x ↔ r ∈ l ∨ r = x := by
  unfold insertSet
  split
  · rename_i hx
    constructor
    · exact Or.inl
    · rintro (h1 | rfl)
      · exact h1
      · exact hx
  · simp

/-- Membership in the resolution sets after inserting one parsed
table. -/
theorem mem_insertTableRes (ts : TableSet) (t : Table) (r : Nat) :
    (r ∈ (insertTableRes ts t).compacted_h3_resolutions ↔
      r ∈ ts.compacted_h3_resolutions ∨
        (t.spec.is_compacted = true ∧ r = t.spec.h3_resolution)) ∧
    (r ∈ (insertTableRes ts t).base_h3_resolutions ↔
      r ∈ ts.base_h3_resolutions ∨
        (t.spec.is_compacted = false ∧ r = t.spec.h3_resolution)) := by
  unfold insertTableRes
  split
  · rename_i hc
    constructor
    · rw [mem_insertSet]
      simp [hc]
    · simp [hc]
  · rename_i hc
    rw [Bool.not_eq_true] at hc
    constructor
    · simp [hc]
    · rw [mem_insertSet]
      simp [hc]

/-- `insertTableRes` keeps the basename. -/
theorem insertTableRes_basename (ts : TableSet) (t : Table) :
    (insertTableRes ts t).basename = ts.basename := by
  unfold insertTableRes
  split <;> rfl

/-- A successful lookup is a member of the association list. -/
theorem tsLookup_eq_some_mem (acc : List (String × TableSet)) (b : String) (ts : TableSet)
    (h : tsLookup acc b = some ts) : (b, ts) ∈ acc := by
  unfold tsLookup at h
  rcases hf : acc.find? (fun kv => kv.1 == b) with _ | kv
  · rw [hf] at h
    exact absurd h (by simp)
  · rw [hf] at h
    have hkv := List.find?_some hf
    have hmem := List.mem_of_find?_eq_some hf
    obtain ⟨k1, k2⟩ := kv
    have hk1 : k1 = b := by simpa using hkv
    subst hk1
    simp only [Option.map] at h
    injection h with h
    subst h
    exact hmem

/-- Lookup skips a head entry with a different key. -/
theorem tsLookup_cons_ne (k : String) (ts : TableSet) (rest : List (String × TableSet))
    (b : String) (h : (k == b) = false) : tsLookup ((k, ts) :: rest) b = tsLookup rest b := by
  unfold tsLookup
  rw [List.find?_cons]
  simp [h]

/-- Lookup hits a head entry with a matching key. -/
theorem tsLookup_cons_eq (k : String) (ts : TableSet) (rest : List (String × TableSet))
    (b : String) (h : (k == b) = true) : tsLookup ((k, ts) :: rest) b = some ts := by
  unfold tsLookup
  rw [List.find?_cons]
  simp [h]

/-- How `updateEntry` changes a lookup: the touched basename gets the
inserted resolution (seeding an empty tableset when absent); other keys
are untouched. -/
theorem tsLookup_updateEntry (acc : List (String × TableSet)) (table : Table) (b : String) :
    tsLookup (updateEntry acc table) b =
      if table.basename = b then
        some (insertTableRes ((tsLookup acc b).getD (TableSet.new b)) table)
      else tsLookup acc b := by
  induction acc with
  | nil =>
    unfold updateEntry
    by_cases hb : table.basename = b
    · subst hb
      rw [if_pos rfl, tsLookup_cons_eq _ _ _ _ (by simp)]
      rfl
    · rw [if_neg hb, tsLookup_cons_ne _ _ _ _ (by simpa using hb)]
  | cons kv rest ih =>
    obtain ⟨k, ts⟩ := kv
    unfold updateEntry
    by_cases hk : k = table.basename
    · rw [if_pos hk]
      by_cases hb : k = b
      · have hcond : table.basename = b := hk ▸ hb
        rw [if_pos hcond, tsLookup_cons_eq _ _ _ _ (by simpa using hb),
          tsLookup_cons_eq _ _ _ _ (by simpa using hb)]
        rfl
      · have hcond : ¬table.basename = b := by
          rw [← hk]
          exact hb
        rw [if_neg hcond, tsLookup_cons_ne _ _ _ _ (by simpa using hb),
          tsLookup_cons_ne _ _ _ _ (by simpa using hb)]
    · rw [if_neg hk]
      by_cases hb : k = b
      · have hcond : ¬table.basename = b := by
          intro h
          exact hk (hb.trans h.symm)
        rw [if_neg hcond, tsLookup_cons_eq _ _ _ _ (by simpa using hb),
          tsLookup_cons_eq _ _ _ _ (by simpa using hb)]
      · rw [tsLookup_cons_ne _ _ _ _ (by simpa using hb),
          tsLookup_cons_ne _ _ _ _ (by simpa using hb), ih]

/-- `updateEntry` keeps the basename invariant of the association
list. -/
theorem updateEntry_inv (acc : List (String × TableSet)) (table : Table)
    (hinv : ∀ kv ∈ acc, (kv : String × TableSet).2.basename = kv.1) :
    ∀ kv ∈ updateEntry acc table, (kv : String × TableSet).2.basename = kv.1 := by
  induction acc with
  | nil =>
    intro kv hkv
    simp only [updateEntry, List.mem_singleton] at hkv
    subst hkv
    rw [insertTableRes_basename]
    rfl
  | cons hd rest ih =>
    obtain ⟨k, ts⟩ := hd
    intro kv hkv
    by_cases hk : k = table.basename
    · simp only [updateEntry, if_pos hk, List.mem_cons] at hkv
      rcases hkv with rfl | hkv
      · rw [insertTableRes_basename]
        exact hinv (k, ts) (by simp)
      · exact hinv kv (List.mem_cons_of_mem _ hkv)
    · simp only [updateEntry, if_neg hk, List.mem_cons] at hkv
      rcases hkv with rfl | hkv
      · exact hinv (k, ts) (by simp)
      · exact ih (fun kv h => hinv kv (List.mem_cons_of_mem _ h)) kv hkv


/-- The discovery fold, characterized relative to a starting
association list: a key is present after the fold iff it was present
before or some name parses to it, and the resolution sets accumulate
exactly the parsed resolutions of the right kind. -/
theorem find_tablesets_aux (b : String) :
    ∀ (names : List String) (acc : List (String × TableSet)),
      (∀ kv ∈ acc, (kv : String × TableSet).2.basename = kv.1) →
      ((tsLookup (names.foldl findStep acc) b).isSome ↔
        (tsLookup acc b).isSome ∨ ∃ n ∈ names, ∃ t, Table.parse n = some t ∧ t.basename = b) ∧
      (∀ ts, tsLookup (names.foldl findStep acc) b = some ts →
        ts.basename = b ∧
        (∀ r, r ∈ ts.compacted_h3_resolutions ↔
          (∃ ts0, tsLookup acc b = some ts0 ∧ r ∈ ts0.compacted_h3_resolutions) ∨
          ∃ n ∈ names, Table.parse n = some ⟨b, ⟨r, true, false⟩⟩) ∧
        (∀ r, r ∈ ts.base_h3_resolutions ↔
          (∃ ts0, tsLookup acc b = some ts0 ∧ r ∈ ts0.base_h3_resolutions) ∨
          ∃ n ∈ names, Table.parse n = some ⟨b, ⟨r, false, false⟩⟩)) := by
  intro names
  induction names with
  | nil =>
    intro acc hinv
    simp only [List.foldl_nil]
    refine ⟨by simp, ?_⟩
    intro ts hts
    have hmem := tsLookup_eq_some_mem acc b ts hts
    refine ⟨hinv _ hmem, fun r => ?_, fun r => ?_⟩
    · simp [hts]
    · simp [hts]
  | cons n names ih =>
    intro acc hinv
    rw [List.foldl_cons]
    rcases hp : Table.parse n with _ | table
    · have hstep : findStep acc n = acc := by
        unfold findStep
        rw [hp]
      rw [hstep]
      obtain ⟨ihSome, ihMem⟩ := ih acc hinv
      refine ⟨?_, ?_⟩
      · rw [ihSome]
        simp [hp]
      · intro ts hts
        obtain ⟨h1, h2, h3⟩ := ihMem ts hts
        refine ⟨h1, fun r => ?_, fun r => ?_⟩
        · rw [h2 r]
          simp [hp]
        · rw [h3 r]
          simp [hp]
    · have hstep : findStep acc n = updateEntry acc table := by
        unfold findStep
        rw [hp]
      rw [hstep]
      have hinv' := updateEntry_inv acc table hinv
      obtain ⟨ihSome, ihMem⟩ := ih (updateEntry acc table) hinv'
      have him := parse_intermediate_false n table hp
      obtain ⟨tb, tspec⟩ := table
      obtain ⟨tres, tcomp, tim⟩ := tspec
      simp only at him
      subst him
      have hL := tsLookup_updateEntry acc ⟨tb, ⟨tres, tcomp, false⟩⟩ b
      by_cases hb : tb = b
      · subst hb
        have hcond : (⟨tb, ⟨tres, tcomp, false⟩⟩ : Table).basename = tb := rfl
        rw [if_pos hcond] at hL
        refine ⟨?_, ?_⟩
        · rw [ihSome, hL]
          exact iff_of_true (Or.inl (by simp))
            (Or.inr ⟨n, List.mem_cons_self n names, ⟨tb, ⟨tres, tcomp, false⟩⟩, hp, rfl⟩)
        · intro ts hts
          obtain ⟨h1, h2, h3⟩ := ihMem ts hts
          refine ⟨h1, fun r => ?_, fun r => ?_⟩
          · have hmemC : ∀ X : TableSet,
                r ∈ (insertTableRes X ⟨tb, ⟨tres, tcomp, false⟩⟩).compacted_h3_resolutions ↔
                  r ∈ X.compacted_h3_resolutions ∨ (tcomp = true ∧ r = tres) :=
              fun X => (mem_insertTableRes X ⟨tb, ⟨tres, tcomp, false⟩⟩ r).1
            have hhead : (Table.parse n = some ⟨tb, ⟨r, true, false⟩⟩) ↔
                (tcomp = true ∧ r = tres) := by
              rw [hp]
              constructor
              · intro h4
                injection h4 with h4
                injection h4 with hb4 hs4
                injection hs4 with hr4 hc4 hi4
                exact ⟨hc4, hr4.symm⟩
              · rintro ⟨hc4, hr4⟩
                subst hc4
                subst hr4
                rfl
            rw [h2 r, hL]
            constructor
            · rintro (⟨ts0, hts0, hr0⟩ | ⟨n', hn', hpn⟩)
              · cases Option.some.inj hts0
                rcases (hmemC _).mp hr0 with h5 | h5
                · rcases hacc : tsLookup acc tb with _ | ts1
                  · rw [hacc, Option.getD_none] at h5
                    exact absurd h5 (by simp [TableSet.new])
                  · rw [hacc, Option.getD_some] at h5
                    exact Or.inl ⟨ts1, rfl, h5⟩
                · exact Or.inr ⟨n, List.mem_cons_self n names, hhead.mpr h5⟩
              · exact Or.inr ⟨n', List.mem_cons_of_mem _ hn', hpn⟩
            · rintro (⟨ts0, hts0, hr0⟩ | ⟨n', hn', hpn⟩)
              · refine Or.inl ⟨_, rfl, (hmemC _).mpr (Or.inl ?_)⟩
                rw [hts0, Option.getD_some]
                exact hr0
              · rcases List.mem_cons.mp hn' with rfl | hn2
                · exact Or.inl ⟨_, rfl, (hmemC _).mpr (Or.inr (hhead.mp hpn))⟩
                · exact Or.inr ⟨n', hn2, hpn⟩
          · have hmemB : ∀ X : TableSet,
                r ∈ (insertTableRes X ⟨tb, ⟨tres, tcomp, false⟩⟩).base_h3_resolutions ↔
                  r ∈ X.base_h3_resolutions ∨ (tcomp = false ∧ r = tres) :=
              fun X => (mem_insertTableRes X ⟨tb, ⟨tres, tcomp, false⟩⟩ r).2
            have hhead : (Table.parse n = some ⟨tb, ⟨r, false, false⟩⟩) ↔
                (tcomp = false ∧ r = tres) := by
              rw [hp]
              constructor
              · intro h4
                injection h4 with h4
                injection h4 with hb4 hs4
                injection hs4 with hr4 hc4 hi4
                exact ⟨hc4, hr4.symm⟩
              · rintro ⟨hc4, hr4⟩
                subst hc4
                subst hr4
                rfl
            rw [h3 r, hL]
            constructor
            · rintro (⟨ts0, hts0, hr0⟩ | ⟨n', hn', hpn⟩)
              · cases Option.some.inj hts0
                rcases (hmemB _).mp hr0 with h5 | h5
                · rcases hacc : tsLookup acc tb with _ | ts1
                  · rw [hacc, Option.getD_none] at h5
                    exact absurd h5 (by simp [TableSet.new])
                  · rw [hacc, Option.getD_some] at h5
                    exact Or.inl ⟨ts1, rfl, h5⟩
                · exact Or.inr ⟨n, List.mem_cons_self n names, hhead.mpr h5⟩
              · exact Or.inr ⟨n', List.mem_cons_of_mem _ hn', hpn⟩
            · rintro (⟨ts0, hts0, hr0⟩ | ⟨n', hn', hpn⟩)
              · refine Or.inl ⟨_, rfl, (hmemB _).mpr (Or.inl ?_)⟩
                rw [hts0, Option.getD_some]
                exact hr0
              · rcases List.mem_cons.mp hn' with rfl | hn2
                · exact Or.inl ⟨_, rfl, (hmemB _).mpr (Or.inr (hhead.mp hpn))⟩
                · exact Or.inr ⟨n', hn2, hpn⟩
      · have hcond : ¬(⟨tb, ⟨tres, tcomp, false⟩⟩ : Table).basename = b := hb
        rw [if_neg hcond] at hL
        refine ⟨?_, ?_⟩
        · rw [ihSome, hL]
          constructor
          · rintro (h1 | ⟨n', hn', t, hpt, hbt⟩)
            · exact Or.inl h1
            · exact Or.inr ⟨n', List.mem_cons_of_mem _ hn', t, hpt, hbt⟩
          · rintro (h1 | ⟨n', hn', t, hpt, hbt⟩)
            · exact Or.inl h1
            · rcases List.mem_cons.mp hn' with rfl | hn2
              · rw [hp] at hpt
                cases Option.some.inj hpt
                exact absurd hbt hb
              · exact Or.inr ⟨n', hn2, t, hpt, hbt⟩
        · intro ts hts
          obtain ⟨h1, h2, h3⟩ := ihMem ts hts
          refine ⟨h1, fun r => ?_, fun r => ?_⟩
          · rw [h2 r, hL]
            constructor
            · rintro (hA | ⟨n', hn', hpn⟩)
              · exact Or.inl hA
              · exact Or.inr ⟨n', List.mem_cons_of_mem _ hn', hpn⟩
            · rintro (hA | ⟨n', hn', hpn⟩)
              · exact Or.inl hA
              · rcases List.mem_cons.mp hn' with rfl | hn2
                · rw [hp] at hpn
                  have h6 := Option.some.inj hpn
                  injection h6 with hbb hspec
                  exact absurd hbb hb
                · exact Or.inr ⟨n', hn2, hpn⟩
          · rw [h3 r, hL]
            constructor
            · rintro (hA | ⟨n', hn', hpn⟩)
              · exact Or.inl hA
              · exact Or.inr ⟨n', List.mem_cons_of_mem _ hn', hpn⟩
            · rintro (hA | ⟨n', hn', hpn⟩)
              · exact Or.inl hA
              · rcases List.mem_cons.mp hn' with rfl | hn2
                · rw [hp] at hpn
                  have h6 := Option.some.inj hpn
                  injection h6 with hbb hspec
                  exact absurd hbb hb
                · exact Or.inr ⟨n', hn2, hpn⟩

/-- `updateEntry` either leaves the key list unchanged or appends the
new basename. -/
theorem updateEntry_keys (acc : List (String × TableSet)) (t : Table) :
    (updateEntry acc t).map Prod.fst =
      if t.basename ∈ acc.map Prod.fst then acc.map Prod.fst
      else acc.map Prod.fst ++ [t.basename] := by
  induction acc with
  | nil => simp [updateEntry]
  | cons kv rest ih =>
    obtain ⟨k, ts⟩ := kv
    by_cases hk : k = t.basename
    · subst hk
      simp [updateEntry]
    · simp only [updateEntry, if_neg hk, List.map_cons]
      rw [ih]
      by_cases hm : t.basename ∈ rest.map Prod.fst
      · rw [if_pos hm, if_pos (List.mem_cons_of_mem _ hm)]
      · have hnotin : t.basename ∉ (k :: rest.map Prod.fst) := by
          simp only [List.mem_cons]
          rintro (h | h)
          · exact hk h.symm
          · exact hm h
        rw [if_neg hm, if_neg hnotin]
        simp
/-- Discovery never duplicates a basename key. -/
theorem find_keys_nodup :
    ∀ (names : List String) (acc : List (String × TableSet)),
      (acc.map Prod.fst).Nodup → ((names.foldl findStep acc).map Prod.fst).Nodup := by
  intro names
  induction names with
  | nil =>
    intro acc h
    simpa using h
  | cons n names ih =>
    intro acc h
    rw [List.foldl_cons]
    apply ih
    rcases hp : Table.parse n with _ | t
    · have hstep : findStep acc n = acc := by
        unfold findStep
        rw [hp]
      rw [hstep]
      exact h
    · have hstep : findStep acc n = updateEntry acc t := by
        unfold findStep
        rw [hp]
      rw [hstep, updateEntry_keys]
      split
      · exact h
      · rename_i hnot
        refine List.Nodup.append h (List.nodup_singleton _) ?_
        intro a ha hb
        rw [List.mem_singleton] at hb
        subst hb
        exact hnot ha

/-- C7: each parseable name lands in exactly one resulting tableset —
the one keyed by its parsed basename, whose resolution sets hold
exactly the parsed resolutions of the matching kind (compacted suffix
into `compacted_h3_resolutions`, base suffix into
`base_h3_resolutions`); unparseable names are ignored, basenames never
repeat, and no tableset exists without a parseable name. -/
theorem c7_find_tablesets_partition (tablenames : List String) (b : String) (r : Nat) :
    ((tsLookup (find_tablesets tablenames) b).isSome ↔
      ∃ n ∈ tablenames, ∃ t, Table.parse n = some t ∧ t.basename = b) ∧
    (∀ ts, tsLookup (find_tablesets tablenames) b = some ts →
      ts.basename = b ∧
      (r ∈ ts.compacted_h3_resolutions ↔
        ∃ n ∈ tablenames, Table.parse n = some ⟨b, ⟨r, true, false⟩⟩) ∧
      (r ∈ ts.base_h3_resolutions ↔
        ∃ n ∈ tablenames, Table.parse n = some ⟨b, ⟨r, false, false⟩⟩)) ∧
    ((find_tablesets tablenames).map Prod.fst).Nodup := by
  unfold find_tablesets
  obtain ⟨hSome, hMem⟩ := find_tablesets_aux b tablenames [] (by simp)
  refine ⟨?_, ?_, ?_⟩
  · rw [hSome]
    simp [tsLookup]
  · intro ts hts
    obtain ⟨h1, h2, h3⟩ := hMem ts hts
    refine ⟨h1, ?_, ?_⟩
    · rw [h2 r]
      simp [tsLookup]
    · rw [h3 r]
      simp [tsLookup]
  · exact find_keys_nodup tablenames [] (by simp)

/-- Witness for C7 on the discovery of
`["water_00_base", "water_00_compacted", "water_01_base", "one"]`:
the `water` tableset holds compacted resolution 0 and base
resolutions 0 and 1, and the system table name `one` contributes
nothing. -/
theorem c7_witness :
    (⟨"water", [0], [0, 1], []⟩ : TableSet).basename = "water" ∧
    ((0 : Nat) ∈ (⟨"water", [0], [0, 1], []⟩ : TableSet).compacted_h3_resolutions ↔
      ∃ n ∈ ["water_00_base", "water_00_compacted", "water_01_base", "one"],
        Table.parse n = some ⟨"water", ⟨0, true, false⟩⟩) ∧
    ((0 : Nat) ∈ (⟨"water", [0], [0, 1], []⟩ : TableSet).base_h3_resolutions ↔
      ∃ n ∈ ["water_00_base", "water_00_compacted", "water_01_base", "one"],
        Table.parse n = some ⟨"water", ⟨0, false, false⟩⟩) :=
  (c7_find_tablesets_partition
      ["water_00_base", "water_00_compacted", "water_01_base", "one"] "water" 0).2.1
    ⟨"water", [0], [0, 1], []⟩ (by decide)

/-! ### The query planner, characterized -/

/-- The per-resolution parent set: no duplicates, and exactly the
parents of the input cells. -/
theorem parentList_aux (m : H3Model) (r : Nat) :
    ∀ (cells : List Nat) (acc : List Nat), acc.Nodup →
      ((cells.foldl
          (fun acc c => if m.getParent c r ∈ acc then acc else acc ++ [m.getParent c r])
          acc).Nodup ∧
        ∀ x, x ∈ cells.foldl
            (fun acc c => if m.getParent c r ∈ acc then acc else acc ++ [m.getParent c r])
            acc ↔ x ∈ acc ∨ ∃ c ∈ cells, m.getParent c r = x) := by
  intro cells
  induction cells with
  | nil =>
    intro acc h
    exact ⟨h, by simp⟩
  | cons c cells ih =>
    intro acc h
    rw [List.foldl_cons]
    by_cases hmem : m.getParent c r ∈ acc
    · rw [if_pos hmem]
      obtain ⟨ih1, ih2⟩ := ih acc h
      refine ⟨ih1, fun x => ?_⟩
      rw [ih2 x]
      constructor
      · rintro (hx | ⟨c', hc', he⟩)
        · exact Or.inl hx
        · exact Or.inr ⟨c', List.mem_cons_of_mem _ hc', he⟩
      · rintro (hx | ⟨c', hc', he⟩)
        · exact Or.inl hx
        · rcases List.mem_cons.mp hc' with rfl | hc2
          · exact Or.inl (he ▸ hmem)
          · exact Or.inr ⟨c', hc2, he⟩
    · rw [if_neg hmem]
      have hnodup : (acc ++ [m.getParent c r]).Nodup := by
        refine List.Nodup.append h (List.nodup_singleton _) ?_
        intro a ha hb
        rw [List.mem_singleton] at hb
        subst hb
        exact hmem ha
      obtain ⟨ih1, ih2⟩ := ih _ hnodup
      refine ⟨ih1, fun x => ?_⟩
      rw [ih2 x]
      simp only [List.mem_append, List.mem_singleton, List.mem_cons]
      constructor
      · rintro ((hx | hx1) | ⟨c', hc', he⟩)
        · exact Or.inl hx
        · rcases hx1 with rfl | h0
          · exact Or.inr ⟨c, Or.inl rfl, rfl⟩
          · cases h0
        · exact Or.inr ⟨c', Or.inr hc', he⟩
      · rintro (hx | ⟨c', hc', he⟩)
        · exact Or.inl (Or.inl hx)
        · rcases hc' with rfl | hc2
          · exact Or.inl (Or.inr (Or.inl he.symm))
          · exact Or.inr ⟨c', hc2, he⟩


/-- `parentList` holds each distinct parent of the input cells exactly
once. -/
theorem parentList_spec (m : H3Model) (cells : List Nat) (r : Nat) :
    (parentList m cells r).Nodup ∧
      ∀ x, x ∈ parentList m cells r ↔ ∃ c ∈ cells, m.getParent c r = x := by
  obtain ⟨h1, h2⟩ := parentList_aux m r cells [] (by simp)
  refine ⟨h1, fun x => ?_⟩
  rw [parentList, h2 x]
  simp

/-- The per-cell validation loop succeeds on valid cells of a uniform
resolution. -/
theorem checkCells_ok (m : H3Model) (R : Nat) :
    ∀ cells : List Nat, (∀ c ∈ cells, m.isValid c = true) →
      (∀ c ∈ cells, m.resolution c = R) → checkCells m R cells = .ok () := by
  intro cells
  induction cells with
  | nil =>
    intro _ _
    rfl
  | cons c cells ih =>
    intro hv hr
    have h1 := hv c (List.mem_cons_self c cells)
    have h2 := hr c (List.mem_cons_self c cells)
    unfold checkCells checkIndexValidInt
    rw [h1, h2]
    simp only [if_true, eq_self_iff_true]
    exact ih (fun c' hc' => hv c' (List.mem_cons_of_mem _ hc'))
      (fun c' hc' => hr c' (List.mem_cons_of_mem _ hc'))

/-- Projecting the column names commutes with the `h3index` filter. -/
theorem map_fst_filter_cols (l : List (String × String)) :
    (l.filter (fun kv => !(strStartsWith kv.1 "h3index"))).map (fun kv => kv.1) =
      (l.map Prod.fst).filter (fun c => !(strStartsWith c "h3index")) := by
  induction l with
  | nil => rfl
  | cons kv rest ih =>
    rcases hp : strStartsWith kv.1 "h3index" with _ | _ <;>
      simp [List.filter_cons, hp, ih]

/-- C1: on a non-empty list of valid cells of uniform resolution `R`,
against a tableset reaching at least one resolution `≤ R`, the
autogenerated plan is exactly one SELECT per resolution in
`(base ∪ compacted) ∩ [0..R]`, in ascending order joined by
`" union all "`; the SELECT at `R` reads the base table, every SELECT
below `R` reads the compacted table, each reading
`select h3index, <user columns> from <table> where h3index in
[<parents at r>]` with the user columns the non-`h3index` keys of the
columns map; and the bracketed list holds exactly the distinct parents
of the input cells at `r`. -/
theorem c1_build_select_query_autogenerated (m : H3Model) (ts : TableSet)
    (h3indexes : List Nat) (R : Nat)
    (hne : h3indexes ≠ [])
    (hval : ∀ c ∈ h3indexes, m.isValid c = true)
    (hres : ∀ c ∈ h3indexes, m.resolution c = R)
    (hreach : ∃ r, (r ∈ ts.base_h3_resolutions ∨ r ∈ ts.compacted_h3_resolutions) ∧ r ≤ R) :
    ts.build_select_query m h3indexes .AutoGenerated =
      .ok (String.intercalate " union all "
        (((List.range (R + 1)).filter
            (fun r => decide (r ∈ ts.base_h3_resolutions ∨ r ∈ ts.compacted_h3_resolutions))).map
          (fun r =>
            "select h3index, " ++
              String.intercalate ", "
                ((ts.columns.map Prod.fst).filter (fun c => !(strStartsWith c "h3index"))) ++
              " from " ++
              (ts.basename ++ "_" ++ formatRes02 r ++ "_" ++
                (if r = R then "base" else "compacted")) ++
              " where h3index in " ++
              ("[" ++
                String.intercalate "," ((parentList m h3indexes r).map toString) ++
                "]")))) ∧
    ∀ r, (parentList m h3indexes r).Nodup ∧
      ∀ x, x ∈ parentList m h3indexes r ↔ ∃ c ∈ h3indexes, m.getParent c r = x := by
  refine ⟨?_, fun r => parentList_spec m h3indexes r⟩
  rcases h3indexes with _ | ⟨c0, rest⟩
  · exact absurd rfl hne
  have hR : m.resolution c0 = R := hres c0 (List.mem_cons_self c0 rest)
  have hvalid0 : m.isValid c0 = true := hval c0 (List.mem_cons_self c0 rest)
  have hnonempty : ¬reachableKeys ts R = [] := by
    obtain ⟨r0, hr0, hle⟩ := hreach
    apply List.ne_nil_of_mem (a := r0)
    unfold reachableKeys
    rw [List.mem_filter]
    exact ⟨List.mem_append.mpr hr0, by simpa using hle⟩
  unfold TableSet.build_select_query TableSetQuery.validate checkIndexValidInt
  simp only [hvalid0, hR, if_true, eq_self_iff_true,
    checkCells_ok m R (c0 :: rest) hval hres, hnonempty, if_false, ite_false]
  congr 1
  have hfilter : (List.range (R + 1)).filter (fun r => (reachableKeys ts R).contains r) =
      (List.range (R + 1)).filter
        (fun r => decide (r ∈ ts.base_h3_resolutions ∨ r ∈ ts.compacted_h3_resolutions)) := by
    apply List.filter_congr
    intro x hx
    rw [List.mem_range, Nat.lt_succ_iff] at hx
    rw [Bool.eq_iff_iff]
    simp [reachableKeys, List.mem_filter, List.mem_append, hx]
  rw [hfilter]
  apply congrArg
  apply List.map_congr_left
  intro r hr
  unfold queryPart
  have hcols : selectableColumns ts =
      String.intercalate ", "
        ((ts.columns.map Prod.fst).filter (fun c => !(strStartsWith c "h3index"))) := by
    unfold selectableColumns
    rw [map_fst_filter_cols]
  have htname : tableNameFor ts r R =
      ts.basename ++ "_" ++ formatRes02 r ++ "_" ++
        (if r = R then "base" else "compacted") := by
    unfold tableNameFor Table.to_table_name
    by_cases hrR : r = R
    · subst hrR
      simp
    · simp [hrR, bne_iff_ne, Ne, hrR]
  rw [hcols] at *
  simp only [hcols, htname]

example :
    TableSet.build_select_query ⟨"water", [3], [5], [("v", "u32"), ("h3index", "UInt64")]⟩
        mToy [5001, 5002] .AutoGenerated =
      .ok ("select h3index, v from water_03_compacted where h3index in [3001,3002]" ++
        " union all " ++
        "select h3index, v from water_05_base where h3index in [5001,5002]") := by
  rfl

/-- Witness for C1: the toy model at target resolution 5 over the
`water` tableset with base resolution 5 and compacted resolution 3. -/
theorem c1_witness :
    TableSet.build_select_query ⟨"water", [3], [5], [("v", "u32"), ("h3index", "UInt64")]⟩
        mToy [5001, 5002] .AutoGenerated =
      .ok (String.intercalate " union all "
        (((List.range 6).filter
            (fun r => decide (r ∈ ([5] : List Nat) ∨ r ∈ ([3] : List Nat)))).map
          (fun r =>
            "select h3index, " ++
              String.intercalate ", "
                ((([("v", "u32"), ("h3index", "UInt64")] : List (String × String)).map
                    Prod.fst).filter (fun c => !(strStartsWith c "h3index"))) ++
              " from " ++
              ("water" ++ "_" ++ formatRes02 r ++ "_" ++
                (if r = 5 then "base" else "compacted")) ++
              " where h3index in " ++
              ("[" ++
                String.intercalate "," ((parentList mToy [5001, 5002] r).map toString) ++
                "]")))) ∧
    ∀ r, (parentList mToy [5001, 5002] r).Nodup ∧
      ∀ x, x ∈ parentList mToy [5001, 5002] r ↔ ∃ c ∈ [5001, 5002], mToy.getParent c r = x :=
  c1_build_select_query_autogenerated mToy
    ⟨"water", [3], [5], [("v", "u32"), ("h3index", "UInt64")]⟩
    [5001, 5002] 5 (by decide) (by decide) (by decide) ⟨5, by decide, by decide⟩

/-- Counterexample to C4: over the `water` tableset with base
resolution 5 and compacted resolution 3, the existence check for the
resolution-5 cell 5007 is not the single coarse-table query the claim
states — the code plans one existence SELECT per reachable resolution
and unions them. Against a database that has rows exactly for the
claimed single query, the claim would retain the cell, but `has_data`
answers `false`. -/
theorem c4_counterexample :
    has_data envC4 mToy ⟨"water", [3], [5], []⟩ 5007 none = .ok false ∧
    TableSet.build_select_query ⟨"water", [3], [5], []⟩ mToy [5007]
        (.TemplatedSelect defaultExistenceTemplate) =
      .ok ("select h3index from water_03_compacted where h3index in [3007] limit 1" ++
        " union all " ++
        "select h3index from water_05_base where h3index in [5007] limit 1") :=
  ⟨rfl, rfl⟩

/-- C4 (amended): with no template, the existence check for a coarse
cell `c` is the `" union all "` join, over every reachable resolution
`r ≤ resolution(c)` in ascending order, of the default existence
template with `<[table]>` replaced by that resolution's table (base at
`resolution(c)`, compacted below) and `<[h3indexes]>` replaced by
`[parent(c, r)]` — not a query against the coarse-resolution table
only — and the cell is retained iff this union query returns at least
one row. -/
theorem c4_amended_existence_union (env : ChEnv) (m : H3Model) (ts : TableSet) (c : Nat)
    (hvalid : m.isValid c = true)
    (hreach : ¬reachableKeys ts (m.resolution c) = []) :
    has_data env m ts c none =
      (match env.queryReturnsRows (String.intercalate " union all "
        (((List.range (m.resolution c + 1)).filter
            (fun r => (reachableKeys ts (m.resolution c)).contains r)).map
          (fun r =>
            strReplace (strReplace defaultExistenceTemplate "<[table]>"
                (tableNameFor ts r (m.resolution c)))
              "<[h3indexes]>" ("[" ++ toString (m.getParent c r) ++ "]")))) with
      | .error e => .error (.chErr e)
      | .ok b => .ok b) := by
  have hbs : TableSet.build_select_query ts m [c] (.TemplatedSelect defaultExistenceTemplate) =
      .ok (String.intercalate " union all "
        (((List.range (m.resolution c + 1)).filter
            (fun r => (reachableKeys ts (m.resolution c)).contains r)).map
          (fun r =>
            strReplace (strReplace defaultExistenceTemplate "<[table]>"
                (tableNameFor ts r (m.resolution c)))
              "<[h3indexes]>" ("[" ++ toString (m.getParent c r) ++ "]")))) := by
    have hv : TableSetQuery.validate (.TemplatedSelect defaultExistenceTemplate) = .ok () := rfl
    have hcc : checkCells m (m.resolution c) [c] = .ok () :=
      checkCells_ok m (m.resolution c) [c]
        (fun x hx => by
          rw [List.mem_singleton] at hx
          subst hx
          exact hvalid)
        (fun x hx => by
          rw [List.mem_singleton] at hx
          subst hx
          rfl)
    unfold TableSet.build_select_query checkIndexValidInt
    simp only [hv, hvalid, if_true, eq_self_iff_true, hcc, hreach, if_false, ite_false]
    rfl
  unfold has_data
  rw [hvalid]
  simp only [Bool.true_eq_false, if_false, ite_false]
  rw [hbs]

/-- Witness for the amended C4 on the `water` tableset (base 5,
compacted 3) at cell 5007 in the toy model, against a database that
reports rows for every query. -/
theorem c4_witness :
    has_data envCh0 mToy ⟨"water", [3], [5], []⟩ 5007 none =
      (match envCh0.queryReturnsRows (String.intercalate " union all "
        (((List.range (mToy.resolution 5007 + 1)).filter
            (fun r =>
              (reachableKeys ⟨"water", [3], [5], []⟩ (mToy.resolution 5007)).contains r)).map
          (fun r =>
            strReplace (strReplace defaultExistenceTemplate "<[table]>"
                (tableNameFor ⟨"water", [3], [5], []⟩ r (mToy.resolution 5007)))
              "<[h3indexes]>" ("[" ++ toString (mToy.getParent 5007 r) ++ "]")))) with
      | .error e => .error (.chErr e)
      | .ok b => .ok b) :=
  c4_amended_existence_union envCh0 mToy ⟨"water", [3], [5], []⟩ 5007 rfl (by decide)

/-! ### The sliding-window loop, characterized -/

/-- The window-fetch loop: exhaustion yields `none`; an emitted result
set comes from the first queued cell that both has database contents
and has intersecting children, every earlier cell having been skipped
for one of those two reasons; and a queue of only skippable cells
drains to `none`. -/
theorem fetchLoop_spec (env : ChEnv) (m : H3Model) (ts : TableSet) (w : SlidingH3Window) :
    ∀ queue : List Nat,
      (queue = [] → fetchLoop env m ts w queue = (.ok none, [])) ∧
      (∀ rs rest', fetchLoop env m ts w queue = (.ok (some rs), rest') →
        ∃ skipped c, queue = skipped ++ c :: rest' ∧
          (∀ c' ∈ skipped,
            has_data env m ts c' w.query.intoOptionString = .ok false ∨
            (has_data env m ts c' w.query.intoOptionString = .ok true ∧
              windowChildren m w c' = [])) ∧
          has_data env m ts c w.query.intoOptionString = .ok true ∧
          windowChildren m w c ≠ [] ∧
          rs.window_h3index = some c ∧
          rs.h3indexes_queried = some (windowChildren m w c)) ∧
      ((∀ c' ∈ queue,
          has_data env m ts c' w.query.intoOptionString = .ok false ∨
          (has_data env m ts c' w.query.intoOptionString = .ok true ∧
            windowChildren m w c' = [])) →
        fetchLoop env m ts w queue = (.ok none, [])) := by
  intro queue
  induction queue with
  | nil =>
    refine ⟨fun _ => rfl, ?_, fun _ => rfl⟩
    intro rs rest' h
    injection h with h1 h2
    exact absurd h1 (by simp)
  | cons c queue ih =>
    obtain ⟨_, ihEmit, ihAll⟩ := ih
    refine ⟨fun h => absurd h (by simp), ?_, ?_⟩
    · intro rs rest' h
      unfold fetchLoop at h
      split at h
      · injection h with h1 h2
        exact absurd h1 (by simp)
      · rename_i hfalse
        obtain ⟨skipped, c', heq, hskip, hc', hne', hw, hq⟩ := ihEmit rs rest' h
        refine ⟨c :: skipped, c', by rw [List.cons_append, heq], ?_, hc', hne', hw, hq⟩
        intro x hx
        rcases List.mem_cons.mp hx with rfl | hx2
        · exact Or.inl hfalse
        · exact hskip x hx2
      · rename_i htrue
        split at h
        · rename_i hempty
          obtain ⟨skipped, c', heq, hskip, hc', hne', hw, hq⟩ := ihEmit rs rest' h
          refine ⟨c :: skipped, c', by rw [List.cons_append, heq], ?_, hc', hne', hw, hq⟩
          intro x hx
          rcases List.mem_cons.mp hx with rfl | hx2
          · exact Or.inr ⟨htrue, hempty⟩
          · exact hskip x hx2
        · rename_i hnonempty
          split at h
          · injection h with h1 h2
            exact absurd h1 (by simp)
          · rename_i qs hqs
            split at h
            · injection h with h1 h2
              exact absurd h1 (by simp)
            · rename_i cd hcd
              injection h with h1 h2
              injection h1 with h1
              injection h1 with h1
              refine ⟨[], c, by rw [List.nil_append, h2], fun x hx => absurd hx (by simp),
                htrue, hnonempty, ?_, ?_⟩
              · rw [← h1]
              · rw [← h1]
    · intro hall
      rcases hall c (List.mem_cons_self c queue) with hf | ⟨ht, hc⟩
      · have hred : fetchLoop env m ts w (c :: queue) = fetchLoop env m ts w queue := by
          conv_lhs => rw [fetchLoop]
          rw [hf]
        rw [hred]
        exact ihAll (fun x hx => hall x (List.mem_cons_of_mem _ hx))
      · have hred : fetchLoop env m ts w (c :: queue) = fetchLoop env m ts w queue := by
          conv_lhs => rw [fetchLoop]
          rw [ht, hc]
          rfl
        rw [hred]
        exact ihAll (fun x hx => hall x (List.mem_cons_of_mem _ hx))

/-- C5: `fetch_next_window` never emits a `ResultSet` for a coarse cell
whose existence check reports no rows or whose children have an empty
polygon intersection — such cells are skipped and iteration advances;
every emitted `ResultSet` carries `window_cell` = the emitting coarse
cell and `cells_queried` = its intersecting children; and an exhausted
(or fully skippable) coarse queue yields `None`. -/
theorem c5_fetch_next_window (env : ChEnv) (m : H3Model) (w : SlidingH3Window) (ts : TableSet) :
    (w.window_queue = [] →
      fetch_next_window env m w ts = (.ok none, { w with window_queue := [] })) ∧
    (∀ rs w', fetch_next_window env m w ts = (.ok (some rs), w') →
      ∃ skipped c, w.window_queue = skipped ++ c :: w'.window_queue ∧
        (∀ c' ∈ skipped,
          has_data env m ts c' w.query.intoOptionString = .ok false ∨
          (has_data env m ts c' w.query.intoOptionString = .ok true ∧
            windowChildren m w c' = [])) ∧
        has_data env m ts c w.query.intoOptionString = .ok true ∧
        windowChildren m w c ≠ [] ∧
        rs.window_h3index = some c ∧
        rs.h3indexes_queried = some (windowChildren m w c)) ∧
    ((∀ c' ∈ w.window_queue,
        has_data env m ts c' w.query.intoOptionString = .ok false ∨
        (has_data env m ts c' w.query.intoOptionString = .ok true ∧
          windowChildren m w c' = [])) →
      fetch_next_window env m w ts = (.ok none, { w with window_queue := [] })) := by
  obtain ⟨hNil, hEmit, hAll⟩ := fetchLoop_spec env m ts w w.window_queue
  refine ⟨?_, ?_, ?_⟩
  · intro h
    unfold fetch_next_window
    rw [hNil h]
  · intro rs w' h
    rcases hl : fetchLoop env m ts w w.window_queue with ⟨res, q'⟩
    unfold fetch_next_window at h
    rw [hl] at h
    injection h with h1 h2
    subst h1
    obtain ⟨skipped, c, heq, hskip, hc, hne, hw, hq⟩ := hEmit rs q' hl
    refine ⟨skipped, c, ?_, hskip, hc, hne, hw, hq⟩
    rw [← h2]
    exact heq
  · intro hall
    unfold fetch_next_window
    rw [hAll hall]

/-- Witness for C5: queue `[9001, 9002]` in the toy model — cell 9001
is skipped because its children `[5001, 5501]` fail the even-cell
polygon test, and cell 9002 emits a result set carrying
`window_cell = 9002` and its intersecting children `[5002, 5502]`. -/
theorem c5_witness :
    ∃ skipped c,
      wC5.window_queue = skipped ++ c :: ([] : List Nat) ∧
      (∀ c' ∈ skipped,
        has_data envCh0 mToy tsC5 c' wC5.query.intoOptionString = .ok false ∨
        (has_data envCh0 mToy tsC5 c' wC5.query.intoOptionString = .ok true ∧
          windowChildren mToy wC5 c' = [])) ∧
      has_data envCh0 mToy tsC5 c wC5.query.intoOptionString = .ok true ∧
      windowChildren mToy wC5 c ≠ [] ∧
      (⟨some [5002, 5502], some 9002, ⟨[]⟩⟩ : H3cpyResultSet).window_h3index = some c ∧
      (⟨some [5002, 5502], some 9002, ⟨[]⟩⟩ : H3cpyResultSet).h3indexes_queried =
        some (windowChildren mToy wC5 c) :=
  (c5_fetch_next_window envCh0 mToy wC5 tsC5).2.1
    ⟨some [5002, 5502], some 9002, ⟨[]⟩⟩ { wC5 with window_queue := [] } rfl
